import Mathlib

/-!
Shallow embedding of the `event-tracker` block (`blocks/event-tracker/event-tracker.js`)
of the aem-event-tracker repository, together with proofs settling the frozen
claims C1..C10 about its specification.

Modelling conventions, fixed once for the whole development:

* Cell values are strings; a record (one JSON row) is an association list from
  column names to strings, looked up with `getCell` (JavaScript `row[column]`
  yields `undefined`, modelled by `none`, when the key is absent).
* JavaScript numbers produced by `parseFloat` are modelled exactly as rationals
  (`Rat`), plus explicit `nan` / `posInf` / `negInf` constructors; IEEE-754
  rounding of decimal literals is idealised away.
* JavaScript `Date` values live on a single linear local-time axis measured in
  milliseconds from 1970-01-01 00:00 local time; daylight-saving transitions and
  the `TimeClip` truncation of fractional milliseconds are idealised away.
  Calendar conversions use the standard proleptic-Gregorian day algorithms.
* `Array.prototype.sort` with a comparator is modelled by a stable insertion
  sort (`stableSort`); ECMAScript requires stability, and for comparators that
  are not consistent the ECMAScript result is implementation-defined, so the
  model fixes one stable implementation.
* `String.prototype.toLowerCase` and `localeCompare` are modelled by ASCII
  lowercasing and code-point lexicographic comparison.
-/

attribute [local semireducible] Rat.add Rat.sub Rat.mul Rat.inv

/-! ## Characters, whitespace, trimming -/

/-- The whitespace characters recognised by JavaScript `String.prototype.trim`
and by the leading-whitespace skip of `parseFloat` (ASCII fragment). -/
def isWSChar (c : Char) : Bool :=
  c == ' ' || c == '\t' || c == '\n' || c == '\r' || c == '\x0b' || c == '\x0c'

/-- JavaScript `value.trim()` on a character list: strip leading and trailing
whitespace. -/
def jsTrim (l : List Char) : List Char :=
  ((l.dropWhile isWSChar).reverse.dropWhile isWSChar).reverse

/-- Numeric value of a digit string (most significant first). -/
def digitsVal (l : List Char) : Nat :=
  l.foldl (fun acc c => 10 * acc + (c.toNat - 48)) 0

/-! ## JavaScript numbers and `parseFloat` -/

/-- The result of JavaScript numeric coercion: an exact rational, an infinity,
or `NaN`. -/
inductive JsNum where
  | nan : JsNum
  | posInf : JsNum
  | negInf : JsNum
  | fin : Rat → JsNum
deriving DecidableEq

/-- `Number.isNaN`. -/
def JsNum.isNaNum : JsNum → Bool
  | .nan => true
  | _ => false

/-- `Number.isFinite`. -/
def JsNum.isFiniteNum : JsNum → Bool
  | .fin _ => true
  | _ => false

/-- `n >= x` for a JavaScript number against a rational constant. -/
def JsNum.geQ : JsNum → Rat → Bool
  | .nan, _ => false
  | .posInf, _ => true
  | .negInf, _ => false
  | .fin q, x => decide (x ≤ q)

/-- `n < x` for a JavaScript number against a rational constant. -/
def JsNum.ltQ : JsNum → Rat → Bool
  | .nan, _ => false
  | .posInf, _ => false
  | .negInf, _ => true
  | .fin q, x => decide (q < x)

/-- Exponent suffix of a JavaScript decimal literal: `e`/`E`, an optional sign
and digits.  A malformed exponent (no digits) contributes factor `10 ^ 0`,
exactly as `parseFloat` takes the longest valid literal prefix. -/
def expVal (l : List Char) : Int :=
  if l.head? == some 'e' || l.head? == some 'E' then
    let t := l.tail
    let sg : Int := if t.head? == some '-' then -1 else 1
    let t2 := if t.head? == some '+' || t.head? == some '-' then t.tail else t
    let ds := t2.takeWhile Char.isDigit
    if ds.isEmpty then 0 else sg * (digitsVal ds : Int)
  else 0

/-- `10 ^ e` for an integer exponent, as a rational. -/
def pow10 (e : Int) : Rat :=
  if 0 ≤ e then ((10 : Rat) ^ e.toNat) else 1 / ((10 : Rat) ^ (-e).toNat)

/-- Parse an unsigned JavaScript decimal literal prefix (after whitespace and
sign have been consumed): digits, an optional fraction, an optional exponent,
or the literal `Infinity`; anything with no leading digits is `NaN`. -/
def parseUnsigned (sgn : Rat) (l : List Char) : JsNum :=
  if ("Infinity".data).isPrefixOf l then (if sgn < 0 then .negInf else .posInf)
  else
    let ip := l.takeWhile Char.isDigit
    let r1 := l.dropWhile Char.isDigit
    let hasDot := r1.head? == some '.'
    let fp := if hasDot then r1.tail.takeWhile Char.isDigit else []
    let r2 := if hasDot then r1.tail.dropWhile Char.isDigit else r1
    if ip.isEmpty && fp.isEmpty then .nan
    else .fin (sgn * ((digitsVal ip : Rat) + (digitsVal fp : Rat) / (10 : Rat) ^ fp.length)
                 * pow10 (expVal r2))

/-- JavaScript `parseFloat(value)`: skip leading whitespace, read an optional
sign, then the longest decimal-literal prefix; `NaN` when there is none. -/
def jsParseFloat (s : String) : JsNum :=
  let l := s.data.dropWhile isWSChar
  if l.head? == some '+' then parseUnsigned 1 l.tail
  else if l.head? == some '-' then parseUnsigned (-1) l.tail
  else parseUnsigned 1 l

/-! ## The regular-expression patterns used by the block -/

/-- The serial-date pattern `^\d+(\.\d+)?$`. -/
def matchesSerialPattern (l : List Char) : Bool :=
  let ip := l.takeWhile Char.isDigit
  let rest := l.dropWhile Char.isDigit
  !ip.isEmpty &&
    (rest.isEmpty ||
      (rest.head? == some '.' && !rest.tail.isEmpty && rest.tail.all Char.isDigit))

/-- Exact decimal value of a string matching `^\d+(\.\d+)?$`:
integer part plus fractional part. -/
def decimalValue (l : List Char) : Rat :=
  let ip := l.takeWhile Char.isDigit
  let rest := l.dropWhile Char.isDigit
  let fp := rest.tail.takeWhile Char.isDigit
  (digitsVal ip : Rat) + (digitsVal fp : Rat) / (10 : Rat) ^ fp.length

/-- The display-date pattern `^\d{1,2}\/\d{1,2}\/\d{4}$`. -/
def matchesDatePattern (l : List Char) : Bool :=
  let a := l.takeWhile Char.isDigit
  let r := l.dropWhile Char.isDigit
  (a.length == 1 || a.length == 2) &&
    match r with
    | '/' :: r1 =>
      let b := r1.takeWhile Char.isDigit
      let r2 := r1.dropWhile Char.isDigit
      (b.length == 1 || b.length == 2) &&
        match r2 with
        | '/' :: r3 => r3.length == 4 && r3.all Char.isDigit
        | _ => false
    | _ => false

/-- The time pattern `^\d{1,2}:\d{2}$`. -/
def matchesTimePattern (l : List Char) : Bool :=
  let a := l.takeWhile Char.isDigit
  let r := l.dropWhile Char.isDigit
  (a.length == 1 || a.length == 2) &&
    match r with
    | ':' :: rest => rest.length == 2 && rest.all Char.isDigit
    | _ => false

/-- Minutes since midnight denoted by a string matching `^\d{1,2}:\d{2}$`
(`hours * 60 + minutes`; hour values up to 99 are taken as given, exactly as
`setHours` does before day-carrying). -/
def timeMinutes (l : List Char) : Nat :=
  let a := l.takeWhile Char.isDigit
  let r := l.dropWhile Char.isDigit
  digitsVal a * 60 + digitsVal r.tail

/-! ## Calendar arithmetic (proleptic Gregorian, standard day-count algorithms) -/

/-- Day count since 1970-01-01 of the civil date `(y, m, d)`. -/
def daysFromCivil (y : Int) (m d : Nat) : Int :=
  let y1 := if m ≤ 2 then y - 1 else y
  let era := Int.fdiv y1 400
  let yoe := (y1 - era * 400).toNat
  let mp := if 3 ≤ m then m - 3 else m + 9
  let doy := (153 * mp + 2) / 5 + d - 1
  let doe := yoe * 365 + yoe / 4 - yoe / 100 + doy
  era * 146097 + (doe : Int) - 719468

/-- Civil date `(year, month, day)` of the day `z` days after 1970-01-01. -/
def civilFromDays (z : Int) : Int × Nat × Nat :=
  let z1 := z + 719468
  let era := Int.fdiv z1 146097
  let doe := (z1 - era * 146097).toNat
  let yoe := (doe - doe / 1460 + doe / 36524 - doe / 146096) / 365
  let y := (yoe : Int) + era * 400
  let doy := doe - (365 * yoe + yoe / 4 - yoe / 100)
  let mp := (5 * doy + 2) / 153
  let d := doy - (153 * mp + 2) / 5 + 1
  let m := if mp < 10 then mp + 3 else mp - 9
  (if m ≤ 2 then y + 1 else y, m, d)

/-- `String(n).padStart(2, '0')` for the small numbers produced by
`getMonth() + 1` and `getDate()`. -/
def pad2 (n : Nat) : String :=
  if n < 10 then "0" ++ toString n else toString n

/-- `MM/DD/YYYY` rendering of a civil date triple. -/
def formatCivil : Int × Nat × Nat → String
  | (y, m, d) => pad2 m ++ "/" ++ pad2 d ++ "/" ++ toString y

/-- Milliseconds (local axis, origin 1970-01-01 00:00) of local midnight of the
civil date `(y, m, d)`; models `new Date(y, m - 1, d).getTime()`. -/
def jsMakeDateMs (y : Int) (m d : Nat) : Rat :=
  ((daysFromCivil y m d : Int) : Rat) * 86400000

/-! ## The block's date helpers
(`formatExcelDate`, `isExcelSerialDate`, `formatCellValue`,
`formatDateTimeValue`, `getTimeColumnForDate`, `createDateTimeFromExcel`) -/

/-- `formatExcelDate(serialDate)`: `new Date(1900, 0, 1)` plus
`(parseFloat(serialDate) - 2)` days, rendered `MM/DD/YYYY` from the local
calendar components of the resulting timestamp. -/
def formatExcelDate (serialDate : String) : String :=
  match jsParseFloat serialDate with
  | .fin q =>
      let ms := jsMakeDateMs 1900 1 1 + (q - 2) * 86400000
      formatCivil (civilFromDays (Int.floor (ms / 86400000)))
  | _ => "NaN/NaN/NaN"

/-- `isExcelSerialDate(value)`: the trimmed value matches `^\d+(\.\d+)?$` and
`parseFloat(value)` is a non-`NaN` number in `[1, 100000)`. -/
def isExcelSerialDate (value : String) : Bool :=
  if !(matchesSerialPattern (jsTrim value.data)) then false
  else
    let num := jsParseFloat value
    !num.isNaNum && num.geQ 1 && num.ltQ 100000

/-- `formatCellValue(value)`. -/
def formatCellValue (value : String) : String :=
  if value == "" then ""
  else if isExcelSerialDate value then formatExcelDate value
  else value

/-- `formatDateTimeValue(dateValue, timeValue)`. -/
def formatDateTimeValue (dateValue timeValue : String) : String :=
  if dateValue == "" then ""
  else
    let formattedDate := if isExcelSerialDate dateValue then formatExcelDate dateValue else dateValue
    if timeValue != "" && !(jsTrim timeValue.data).isEmpty then
      formattedDate ++ " " ++ timeValue
    else formattedDate

/-- `suffix.data.isSuffixOf s.data`: JavaScript `s.endsWith(suffix)`. -/
def strEndsWith (s suffix : String) : Bool :=
  suffix.data.isSuffixOf s.data

/-- Drop the last `n` characters: the `s.replace(/X$/, ...)` prefix. -/
def strDropRight (s : String) (n : Nat) : String :=
  ⟨s.data.take (s.data.length - n)⟩

/-- `getTimeColumnForDate(dateColumn, allColumns)`. -/
def getTimeColumnForDate (dateColumn : String) (allColumns : List String) : Option String :=
  if strEndsWith dateColumn "Date" then
    let timeColumn := strDropRight dateColumn 4 ++ "Time"
    if allColumns.contains timeColumn then some timeColumn else none
  else none

/-- `createDateTimeFromExcel(serialDate, timeString)`: the serial timestamp,
with the time-of-day replaced via `setHours(hours, minutes, 0, 0)` when the
time string matches `^\d{1,2}:\d{2}$`.  `none` models an invalid `Date`. -/
def createDateTimeFromExcel (serialDate : String) (timeString : Option String) : Option Rat :=
  match jsParseFloat serialDate with
  | .fin q =>
      let ms := jsMakeDateMs 1900 1 1 + (q - 2) * 86400000
      match timeString with
      | some ts =>
          if ts != "" && matchesTimePattern ts.data then
            some ((Int.floor (ms / 86400000) : Rat) * 86400000 + (timeMinutes ts.data : Rat) * 60000)
          else some ms
      | none => some ms
  | _ => none

/-! ## Records -/

/-- One fetched record: an association list from column names to cell values.
`row[column]` is `getCell`, `row[column] || ''` is `cellD`. -/
abbrev Row := List (String × String)

/-- JavaScript `row[column]` (`none` models `undefined`). -/
def getCell (row : Row) (column : String) : Option String :=
  (List.find? (fun p => p.1 == column) row).map (fun p => p.2)

/-- JavaScript `row[column] || ''`. -/
def cellD (row : Row) (column : String) : String :=
  (getCell row column).getD ""

/-! ## The event filter (`isEventInPast`, `filterPastEvents`)
The evaluation-time `new Date()` is the explicit parameter `now`. -/

/-- `isEventInPast(row, dateColumn, timeColumn)` at evaluation time `now`. -/
def isEventInPast (now : Rat) (row : Row) (dateColumn timeColumn : String) : Bool :=
  match getCell row dateColumn with
  | none => false
  | some dateValue =>
      if dateValue == "" then false
      else if !isExcelSerialDate dateValue then false
      else
        match createDateTimeFromExcel dateValue (getCell row timeColumn) with
        | some eventDateTime => decide (eventDateTime < now)
        | none => false

/-- `filterPastEvents(data, dateColumn, timeColumn)` at evaluation time `now`.
An unset column name is the empty string (falsy). -/
def filterPastEvents (now : Rat) (data : List Row) (dateColumn timeColumn : String) : List Row :=
  if dateColumn == "" || timeColumn == "" then data
  else data.filter (fun row => !isEventInPast now row dateColumn timeColumn)

/-! ## Column type inference (`getColumnDataType`) -/

/-- Sorting data types. -/
inductive DType where
  | date : DType
  | number : DType
  | text : DType
deriving DecidableEq

/-- `getColumnDataType(data, column)`: look at the first (up to) 3 non-empty
values of the column, in record order. -/
def getColumnDataType (data : List Row) (column : String) : DType :=
  if data.isEmpty then .text
  else
    let sampleValues := ((data.map (fun row => getCell row column)).filter
        (fun v => !(v == none) && !(v == some ""))).take 3
    if sampleValues.isEmpty then .text
    else if sampleValues.all (fun v => matchesDatePattern (v.getD "").data) then .date
    else if sampleValues.all (fun v => (jsParseFloat (v.getD "")).isFiniteNum) then .number
    else .text

/-! ## The sorter (`sortData`) -/

/-- Gregorian leap-year test. -/
def isLeapYear (y : Int) : Bool :=
  (y % 4 == 0 && y % 100 != 0) || y % 400 == 0

/-- Days in a month. -/
def daysInMonth (y : Int) (m : Nat) : Nat :=
  if m == 2 then (if isLeapYear y then 29 else 28)
  else if m == 4 || m == 6 || m == 9 || m == 11 then 30
  else 31

/-- `new Date(string).getTime()` as used by the date comparator.  The model
accepts exactly the `M/D/YYYY` slash form (with in-range month and day) as a
local-midnight date; every other string yields an invalid date (`none`) —
string date parsing beyond the ISO format is implementation-defined in
ECMAScript, and the comparator only meets non-slash strings on heuristically
misclassified columns. -/
def jsDateParseMs (s : String) : Option Rat :=
  let l := s.data
  if matchesDatePattern l then
    let m := digitsVal (l.takeWhile Char.isDigit)
    let r := (l.dropWhile Char.isDigit).tail
    let d := digitsVal (r.takeWhile Char.isDigit)
    let y := (digitsVal ((r.dropWhile Char.isDigit).tail) : Int)
    if 1 ≤ m && m ≤ 12 && 1 ≤ d && d ≤ daysInMonth y m then some (jsMakeDateMs y m d)
    else none
  else none

/-- ASCII `toLowerCase`. -/
def lowerStr (s : String) : List Char :=
  s.data.map Char.toLower

/-- Sign of the code-point lexicographic comparison modelling `localeCompare`. -/
def lexSign : List Char → List Char → Int
  | [], [] => 0
  | [], _ :: _ => -1
  | _ :: _, [] => 1
  | a :: as, b :: bs =>
      if a.toNat < b.toNat then -1 else if b.toNat < a.toNat then 1 else lexSign as bs

/-- Sign of a rational. -/
def qsign (q : Rat) : Int :=
  if q < 0 then -1 else if 0 < q then 1 else 0

/-- Sign of JavaScript subtraction of two numbers, as consumed by
`Array.prototype.sort` (a `NaN` comparator result counts as 0). -/
def jsSubSign : JsNum → JsNum → Int
  | .fin a, .fin b => qsign (a - b)
  | .nan, _ => 0
  | _, .nan => 0
  | .posInf, .posInf => 0
  | .negInf, .negInf => 0
  | .posInf, _ => 1
  | .negInf, _ => -1
  | .fin _, .posInf => -1
  | .fin _, .negInf => 1

/-- Sign of `dateA - dateB` on possibly invalid dates (invalid gives `NaN`,
which the sort consumes as 0). -/
def dateSubSign (a b : Option Rat) : Int :=
  match a, b with
  | some x, some y => qsign (x - y)
  | _, _ => 0

/-- Sort directions. -/
inductive SortDir where
  | asc : SortDir
  | desc : SortDir
deriving DecidableEq

/-- `'asc' -> 'desc' -> 'asc'` toggling. -/
def flipDir : SortDir → SortDir
  | .asc => .desc
  | .desc => .asc

/-- The comparator closure of `sortData`, as the sign of the value it returns:
empty values first (1 under `asc`, -1 under `desc` for an empty left value),
then a comparison by the inferred data type, negated under `desc`. -/
def compareRows (dataType : DType) (direction : SortDir) (column : String) (a b : Row) : Int :=
  let valueA := cellD a column
  let valueB := cellD b column
  if valueA == "" && valueB == "" then 0
  else if valueA == "" then (if direction == SortDir.asc then 1 else -1)
  else if valueB == "" then (if direction == SortDir.asc then -1 else 1)
  else
    let comparison : Int :=
      match dataType with
      | .date => dateSubSign (jsDateParseMs valueA) (jsDateParseMs valueB)
      | .number => jsSubSign (jsParseFloat valueA) (jsParseFloat valueB)
      | .text => lexSign (lowerStr valueA) (lowerStr valueB)
    if direction == SortDir.desc then -comparison else comparison

/-- `a` may stay before `b` under the comparator (comparator value ≤ 0). -/
def rowLe (dataType : DType) (direction : SortDir) (column : String) (a b : Row) : Bool :=
  compareRows dataType direction column a b ≤ 0

/-- Stable insertion of `a` into `l`: `a` goes before the first element it may
precede. -/
def insertSorted (le : α → α → Bool) (a : α) : List α → List α
  | [] => [a]
  | b :: l => if le a b then a :: b :: l else b :: insertSorted le a l

/-- Stable sort modelling `Array.prototype.sort(comparator)` (see the header
note: stability is mandated, the rest of the model is one conforming choice). -/
def stableSort (le : α → α → Bool) : List α → List α
  | [] => []
  | a :: l => insertSorted le a (stableSort le l)

/-- `sortData(data, column, direction)`: infer the column type from `data`,
then sort a copy of `data` by the comparator. -/
def sortData (data : List Row) (column : String) (direction : SortDir) : List Row :=
  stableSort (rowLe (getColumnDataType data column) direction column) data

/-! ## Table construction details: display columns and cells -/

/-- `column.replace(/Time$/, 'Date')`. -/
def timeToDateName (column : String) : String :=
  if strEndsWith column "Time" then strDropRight column 4 ++ "Date" else column

/-- The display-column filter of `createTable`: a `*Time` column is dropped
when the suffix-replaced `*Date` name is in the (original) display set. -/
def computeDisplayColumns (displayColumns : List String) : List String :=
  displayColumns.filter (fun column =>
    if strEndsWith column "Time" then !(displayColumns.contains (timeToDateName column))
    else true)

/-- The text content `renderTableBody` puts into the cell of `column` for
`row`: a merged date+time value when `getTimeColumnForDate` finds a paired
time column among `allColumns`, the formatted plain value otherwise. -/
def cellText (row : Row) (column : String) (allColumns : List String) : String :=
  match getTimeColumnForDate column allColumns with
  | some timeColumn => formatDateTimeValue (cellD row column) (cellD row timeColumn)
  | none => formatCellValue (cellD row column)

/-! ## Pagination and sort state -/

/-- `hay.includes(needle)` on character lists. -/
def containsSub : List Char → List Char → Bool
  | [], needle => needle.isEmpty
  | c :: rest, needle => needle.isPrefixOf (c :: rest) || containsSub rest needle

/-- The `displayColumns.find(...)` of `createTable` locating a default-sort
column: lower-cased name contains `"event start date"`, or the name is exactly
`"Event Start Date"`. -/
def findEventStartDateColumn (displayColumns : List String) : Option String :=
  displayColumns.find? (fun col =>
    containsSub (lowerStr col) "event start date".data || col == "Event Start Date")

/-- The mutable `paginationState` object (the `tbody`/`columns` references and
`totalItems` carry no transition-relevant state and are omitted). -/
structure PgState where
  currentData : List Row
  currentPage : Nat
  itemsPerPage : Nat
  sortColumn : Option String
  sortDirection : SortDir
deriving DecidableEq

/-- `Math.ceil(len / itemsPerPage)` on naturals (for positive `itemsPerPage`). -/
def ceilPages (len itemsPerPage : Nat) : Nat :=
  (len + itemsPerPage - 1) / itemsPerPage

/-- `totalPages` as computed by `updatePaginationControls`. -/
def totalPagesOf (s : PgState) : Nat :=
  ceilPages s.currentData.length s.itemsPerPage

/-- `prevButton.disabled = state.currentPage === 1`. -/
def prevDisabled (s : PgState) : Bool :=
  s.currentPage == 1

/-- `nextButton.disabled = state.currentPage >= totalPages`. -/
def nextDisabled (s : PgState) : Bool :=
  totalPagesOf s ≤ s.currentPage

/-- The pagination state created by `createTable` for a non-empty `data`
(`createTable` returns before creating any state when `data` is empty):
page 1, 10 items per page, default sort ascending by the detected
`Event Start Date` column when one exists. -/
def initState (data : List Row) (displayColumns : List String) : PgState :=
  let eventStartDateColumn := findEventStartDateColumn displayColumns
  let sortedData :=
    match eventStartDateColumn with
    | some col => sortData data col .asc
    | none => data
  { currentData := sortedData
    currentPage := 1
    itemsPerPage := 10
    sortColumn := eventStartDateColumn
    sortDirection := .asc }

/-- The sort-header click handler: flip the direction on the active column,
else start ascending on the new column; re-sort the construction-time `data`
(not the currently sorted sequence); reset to page 1. -/
def sortClickFn (data : List Row) (column : String) (s : PgState) : PgState :=
  let direction :=
    if s.sortColumn == some column then flipDir s.sortDirection else SortDir.asc
  { s with
    sortDirection := direction
    sortColumn := some column
    currentData := sortData data column direction
    currentPage := 1 }

/-- The Previous-button click handler. -/
def prevFn (s : PgState) : PgState :=
  if 1 < s.currentPage then { s with currentPage := s.currentPage - 1 } else s

/-- The Next-button click handler. -/
def nextFn (s : PgState) : PgState :=
  if s.currentPage < totalPagesOf s then { s with currentPage := s.currentPage + 1 } else s

/-- The items-per-page change handler. -/
def setIppFn (n : Nat) (s : PgState) : PgState :=
  { s with itemsPerPage := n, currentPage := 1 }

/-- One user-triggered transition of the pagination state for a table built
over `data` with rendered header columns `columns`; the items-per-page select
offers exactly 10, 25, 50, 100. -/
inductive PgStep (data : List Row) (columns : List String) : PgState → PgState → Prop where
  | sortClick (s : PgState) (column : String) (hc : column ∈ columns) :
      PgStep data columns s (sortClickFn data column s)
  | pagePrev (s : PgState) : PgStep data columns s (prevFn s)
  | pageNext (s : PgState) : PgStep data columns s (nextFn s)
  | itemsChange (s : PgState) (n : Nat) (hn : n = 10 ∨ n = 25 ∨ n = 50 ∨ n = 100) :
      PgStep data columns s (setIppFn n s)

/-- States reachable from table construction by user-triggered transitions. -/
def PgReachable (data : List Row) (columns : List String) (s : PgState) : Prop :=
  Relation.ReflTransGen (PgStep data columns) (initState data columns) s

/-- `getPaginatedData(data, page, itemsPerPage)`. -/
def getPaginatedData (data : List Row) (page itemsPerPage : Nat) : List Row :=
  (data.drop ((page - 1) * itemsPerPage)).take itemsPerPage

/-! ## List and character helper lemmas -/

theorem takeWhile_append_all {α : Type} {p : α → Bool} {u v : List α}
    (h : ∀ a ∈ u, p a = true) :
    (u ++ v).takeWhile p = u ++ v.takeWhile p := by
  have hu : u.takeWhile p = u := List.takeWhile_eq_self_iff.mpr h
  rw [List.takeWhile_append, hu, if_pos rfl]

theorem dropWhile_append_all {α : Type} {p : α → Bool} {u v : List α}
    (h : ∀ a ∈ u, p a = true) :
    (u ++ v).dropWhile p = v.dropWhile p := by
  have hu : u.dropWhile p = [] := List.dropWhile_eq_nil_iff.mpr h
  simp [List.dropWhile_append, hu]

theorem takeWhile_eq_nil_of_head {α : Type} {p : α → Bool} {v : List α} {c : α}
    (hv : v.head? = some c) (hc : p c = false) :
    v.takeWhile p = [] := by
  cases v with
  | nil => rfl
  | cons x xs =>
      have hx : x = c := by simpa using hv
      subst hx
      simp [List.takeWhile_cons, hc]

theorem dropWhile_eq_self_of_head {α : Type} {p : α → Bool} {v : List α} {c : α}
    (hv : v.head? = some c) (hc : p c = false) :
    v.dropWhile p = v := by
  cases v with
  | nil => rfl
  | cons x xs =>
      have hx : x = c := by simpa using hv
      subst hx
      simp [List.dropWhile_cons, hc]

theorem wsChar_cases {c : Char} (h : isWSChar c = true) :
    c = ' ' ∨ c = '\t' ∨ c = '\n' ∨ c = '\r' ∨ c = '\x0b' ∨ c = '\x0c' := by
  simp only [isWSChar, Bool.or_eq_true, beq_iff_eq] at h
  tauto

theorem wsChar_not_digit {c : Char} (h : isWSChar c = true) : c.isDigit = false := by
  rcases wsChar_cases h with h | h | h | h | h | h <;> subst h <;> decide

theorem wsChar_ne {c d : Char} (h : isWSChar c = true) (hd : isWSChar d = false) : c ≠ d := by
  intro he
  subst he
  rw [h] at hd
  exact Bool.noConfusion hd

theorem isDigit_ne {c d : Char} (h : c.isDigit = true) (hd : d.isDigit = false) : c ≠ d := by
  intro he
  subst he
  rw [h] at hd
  exact Bool.noConfusion hd

theorem infinity_not_prefix {c : Char} (h : c.isDigit = true) (rest : List Char) :
    ("Infinity".data).isPrefixOf (c :: rest) = false := by
  have he : ("Infinity".data) = 'I' :: "nfinity".data := rfl
  rw [he]
  simp only [List.isPrefixOf, Bool.and_eq_false_iff]
  left
  rw [beq_eq_false_iff_ne]
  exact fun hic => isDigit_ne h (by decide) hic.symm

theorem dropWhile_ws_eq_jsTrim_append (l : List Char) :
    ∃ w, l.dropWhile isWSChar = jsTrim l ++ w ∧ ∀ a ∈ w, isWSChar a = true := by
  set d := l.dropWhile isWSChar with hd
  refine ⟨(d.reverse.takeWhile isWSChar).reverse, ?_, ?_⟩
  · show d = jsTrim l ++ _
    have hsplit : d.reverse.takeWhile isWSChar ++ d.reverse.dropWhile isWSChar = d.reverse :=
      List.takeWhile_append_dropWhile _ _
    have : jsTrim l = (d.reverse.dropWhile isWSChar).reverse := by
      simp only [jsTrim, hd]
    rw [this]
    calc d = d.reverse.reverse := (List.reverse_reverse d).symm
      _ = (d.reverse.takeWhile isWSChar ++ d.reverse.dropWhile isWSChar).reverse := by
            rw [hsplit]
      _ = (d.reverse.dropWhile isWSChar).reverse ++ (d.reverse.takeWhile isWSChar).reverse :=
            List.reverse_append _ _
  · intro a ha
    exact List.mem_takeWhile_imp (List.mem_reverse.mp ha)

theorem serialPattern_decomp {t : List Char} (h : matchesSerialPattern t = true) :
    t.takeWhile Char.isDigit ≠ [] ∧
    (t.dropWhile Char.isDigit = [] ∨
      ∃ fp, t.dropWhile Char.isDigit = '.' :: fp ∧ fp ≠ [] ∧ ∀ a ∈ fp, a.isDigit = true) := by
  simp only [matchesSerialPattern, Bool.and_eq_true, Bool.or_eq_true, Bool.not_eq_true',
    List.isEmpty_iff, List.isEmpty_eq_false] at h
  obtain ⟨hip, hrest⟩ := h
  refine ⟨hip, ?_⟩
  rcases hrest with hrest | ⟨⟨hhead, htail⟩, hall⟩
  · exact Or.inl hrest
  · right
    rcases hcase : t.dropWhile Char.isDigit with _ | ⟨c, rest⟩
    · rw [hcase] at hhead; simp at hhead
    · rw [hcase] at hhead htail hall
      have hc : c = '.' := by simpa [beq_iff_eq] using hhead
      subst hc
      refine ⟨rest, rfl, by simpa using htail, ?_⟩
      intro a ha
      simp only [List.tail_cons] at hall
      exact List.all_eq_true.mp hall a (by simpa using ha)

/-! ## The parseFloat bridge: on serial-pattern strings, `parseFloat` returns
the exact decimal value of the trimmed string -/

theorem jsParseFloat_of_serialPattern {s : String}
    (h : matchesSerialPattern (jsTrim s.data) = true) :
    jsParseFloat s = .fin (decimalValue (jsTrim s.data)) := by
  obtain ⟨w, hw, hws⟩ := dropWhile_ws_eq_jsTrim_append s.data
  set t := jsTrim s.data with ht
  obtain ⟨hip, hrest⟩ := serialPattern_decomp h
  have hsplit : t.takeWhile Char.isDigit ++ t.dropWhile Char.isDigit = t :=
    List.takeWhile_append_dropWhile _ _
  set ip := t.takeWhile Char.isDigit with hipdef
  set rest := t.dropWhile Char.isDigit with hrestdef
  have hipdig : ∀ a ∈ ip, a.isDigit = true := fun a ha => List.mem_takeWhile_imp ha
  obtain ⟨c, ip', hipc⟩ : ∃ c ip', ip = c :: ip' := by
    rcases hh : ip with _ | ⟨c, ip'⟩
    · exact absurd hh hip
    · exact ⟨c, ip', rfl⟩
  have hcdig : c.isDigit = true := hipdig c (by rw [hipc]; exact List.mem_cons_self _ _)
  have hipempty : ip.isEmpty = false := by rw [hipc]; rfl
  have hwtake : w.takeWhile Char.isDigit = [] := by
    cases w with
    | nil => rfl
    | cons c' w' => exact takeWhile_eq_nil_of_head rfl (wsChar_not_digit (hws c' (by simp)))
  have hwdrop : w.dropWhile Char.isDigit = w := by
    cases w with
    | nil => rfl
    | cons c' w' => exact dropWhile_eq_self_of_head rfl (wsChar_not_digit (hws c' (by simp)))
  have hwdot : (w.head? == some '.') = false := by
    cases w with
    | nil => rfl
    | cons c' w' =>
        simp only [List.head?_cons]
        rw [beq_eq_false_iff_ne]
        exact fun hcc => (wsChar_ne (hws c' (by simp)) (by decide)) (Option.some.inj hcc)
  have hwexp : expVal w = 0 := by
    cases w with
    | nil => rfl
    | cons c' w' =>
        have h1 : ((c' :: w').head? == some 'e') = false := by
          simp only [List.head?_cons]
          rw [beq_eq_false_iff_ne]
          exact fun hcc => (wsChar_ne (hws c' (by simp)) (by decide)) (Option.some.inj hcc)
        have h2 : ((c' :: w').head? == some 'E') = false := by
          simp only [List.head?_cons]
          rw [beq_eq_false_iff_ne]
          exact fun hcc => (wsChar_ne (hws c' (by simp)) (by decide)) (Option.some.inj hcc)
        have h3 : (((c' :: w').head? == some 'e') || ((c' :: w').head? == some 'E')) = false := by
          rw [h1, h2]; rfl
        simp only [expVal, h3, Bool.false_eq_true, if_false]
  have hl : s.data.dropWhile isWSChar = c :: (ip' ++ rest ++ w) := by
    rw [hw, ← hsplit, hipc]
    simp
  have hplus : ((c :: (ip' ++ rest ++ w)).head? == some '+') = false := by
    simp only [List.head?_cons]
    rw [beq_eq_false_iff_ne]
    exact fun hcc => isDigit_ne hcdig (by decide) (Option.some.inj hcc)
  have hminus : ((c :: (ip' ++ rest ++ w)).head? == some '-') = false := by
    simp only [List.head?_cons]
    rw [beq_eq_false_iff_ne]
    exact fun hcc => isDigit_ne hcdig (by decide) (Option.some.inj hcc)
  have hinf : ("Infinity".data).isPrefixOf (c :: (ip' ++ rest ++ w)) = false :=
    infinity_not_prefix hcdig _
  simp only [jsParseFloat, hl, hplus, hminus, Bool.false_eq_true, if_false, parseUnsigned, hinf]
  have hcons : c :: (ip' ++ rest ++ w) = ip ++ (rest ++ w) := by
    rw [hipc]; simp
  rw [hcons]
  have hp10 : pow10 0 = 1 := by decide
  rcases hrest with hre | ⟨fp, hre, hfpne, hfpdig⟩
  · rw [hre] at hsplit
    have hteq : t = ip := by rw [← hsplit]; simp
    have e1 : (ip ++ ([] ++ w)).takeWhile Char.isDigit = ip := by
      rw [List.nil_append, takeWhile_append_all hipdig, hwtake, List.append_nil]
    have e2 : (ip ++ ([] ++ w)).dropWhile Char.isDigit = w := by
      rw [List.nil_append, dropWhile_append_all hipdig, hwdrop]
    rw [hre, e1, e2]
    simp only [hwdot, Bool.false_eq_true, if_false, hipempty, Bool.false_and, hwexp, hp10]
    have hdv : decimalValue t
        = (digitsVal ip : Rat)
          + (digitsVal ([] : List Char) : Rat) / (10 : Rat) ^ (([] : List Char)).length := by
      rw [hteq]
      simp only [decimalValue]
      rw [List.takeWhile_eq_self_iff.mpr hipdig, List.dropWhile_eq_nil_iff.mpr hipdig]
      rfl
    rw [hdv]
    congr 1
    ring
  · rw [hre] at hsplit
    have hteq : t = ip ++ ('.' :: fp) := by rw [← hsplit]
    have e1 : (ip ++ (('.' :: fp) ++ w)).takeWhile Char.isDigit = ip := by
      rw [takeWhile_append_all hipdig,
        takeWhile_eq_nil_of_head (show (('.' :: fp) ++ w).head? = some '.' from rfl) (by decide),
        List.append_nil]
    have e2 : (ip ++ (('.' :: fp) ++ w)).dropWhile Char.isDigit = '.' :: (fp ++ w) := by
      rw [dropWhile_append_all hipdig,
        dropWhile_eq_self_of_head (show (('.' :: fp) ++ w).head? = some '.' from rfl) (by decide)]
      rfl
    have e3 : (fp ++ w).takeWhile Char.isDigit = fp := by
      rw [takeWhile_append_all hfpdig, hwtake, List.append_nil]
    have e4 : (fp ++ w).dropWhile Char.isDigit = w := by
      rw [dropWhile_append_all hfpdig, hwdrop]
    rw [hre, e1, e2]
    simp only [List.head?_cons, List.tail_cons, beq_self_eq_true, if_true, e3, e4,
      hipempty, Bool.false_and, Bool.false_eq_true, if_false, hwexp, hp10]
    have hdv : decimalValue t
        = (digitsVal ip : Rat) + (digitsVal fp : Rat) / (10 : Rat) ^ fp.length := by
      rw [hteq]
      simp only [decimalValue]
      rw [takeWhile_append_all hipdig,
        takeWhile_eq_nil_of_head (show ('.' :: fp).head? = some '.' from rfl) (by decide),
        List.append_nil,
        dropWhile_append_all hipdig,
        dropWhile_eq_self_of_head (show ('.' :: fp).head? = some '.' from rfl) (by decide),
        List.tail_cons, List.takeWhile_eq_self_iff.mpr hfpdig]
    rw [hdv]
    congr 1
    ring

/-! ## Specification-side characterisations -/

/-- The spec's characterisation of a serial date (section 4.1): the trimmed
string matches `^\d+(\.\d+)?$` and its decimal value lies in `[1, 100000)`. -/
def specIsSerialDate (v : String) : Bool :=
  matchesSerialPattern (jsTrim v.data)
    && decide (1 ≤ decimalValue (jsTrim v.data))
    && decide (decimalValue (jsTrim v.data) < 100000)

/-- The code's serial-date test agrees with the spec's characterisation. -/
theorem isExcelSerialDate_eq_spec (v : String) :
    isExcelSerialDate v = specIsSerialDate v := by
  unfold isExcelSerialDate specIsSerialDate
  by_cases hm : matchesSerialPattern (jsTrim v.data) = true
  · rw [hm, jsParseFloat_of_serialPattern hm]
    simp [JsNum.isNaNum, JsNum.geQ, JsNum.ltQ]
  · rw [Bool.not_eq_true] at hm
    rw [hm]
    rfl

/-- Day-index arithmetic shared by the date formatter and the event filter:
the local calendar day of `new Date(1900, 0, 1).getTime() + (q - 2) * 86400000`
is 1900-01-01 plus `(floor q - 2)` days. -/
theorem floor_serial_day (q : Rat) :
    Int.floor ((jsMakeDateMs 1900 1 1 + (q - 2) * 86400000) / 86400000)
      = daysFromCivil 1900 1 1 + Int.floor q - 2 := by
  have harith : (jsMakeDateMs 1900 1 1 + (q - 2) * 86400000) / 86400000
      = ((daysFromCivil 1900 1 1 : Int) : Rat) + (q - 2) := by
    unfold jsMakeDateMs
    field_simp
    ring
  rw [harith, Int.floor_int_add]
  have h2 : ⌊q - 2⌋ = ⌊q⌋ - 2 := by
    have := Int.floor_sub_int q (2 : ℤ)
    push_cast at this
    exact this
  rw [h2]
  omega

/-! ## Claims C5, C6, C10 -/

/-- Claim C5: `isExcelSerialDate` is true exactly on strings whose trimmed form
matches `^\d+(\.\d+)?$` with decimal value in `[1, 100000)`; in particular it
is false at `"0.5"` and `"100000"` (and on every non-matching or out-of-range
string, by the left-to-right direction of the equivalence). -/
theorem claim_C5_isSerialDate :
    (∀ s : String,
        isExcelSerialDate s = true ↔
          (matchesSerialPattern (jsTrim s.data) = true
            ∧ 1 ≤ decimalValue (jsTrim s.data)
            ∧ decimalValue (jsTrim s.data) < 100000))
    ∧ isExcelSerialDate "0.5" = false ∧ isExcelSerialDate "100000" = false := by
  refine ⟨fun s => ?_, by decide, by decide⟩
  rw [isExcelSerialDate_eq_spec]
  simp only [specIsSerialDate, Bool.and_eq_true, decide_eq_true_eq]
  tauto

/-- The spec's `serialToDate`: the calendar date 1900-01-01 plus
`floor(value) - 2` days, rendered `MM/DD/YYYY`. -/
def specSerialToDate (v : String) : String :=
  formatCivil (civilFromDays
    (daysFromCivil 1900 1 1 + Int.floor (decimalValue (jsTrim v.data)) - 2))

/-- Claim C6: on serial dates, `formatExcelDate` renders exactly the epoch
1900-01-01 plus `floor(v) - 2` days, `MM/DD/YYYY`-formatted; in particular
`"2"` gives `"01/01/1900"` (and `"45000"` gives `"03/15/2023"`). -/
theorem claim_C6_serialToDate :
    (∀ v : String, isExcelSerialDate v = true → formatExcelDate v = specSerialToDate v)
    ∧ formatExcelDate "2" = "01/01/1900" ∧ formatExcelDate "45000" = "03/15/2023" := by
  refine ⟨fun v hv => ?_, by decide, by decide⟩
  have hm : matchesSerialPattern (jsTrim v.data) = true := by
    rw [isExcelSerialDate_eq_spec] at hv
    simp only [specIsSerialDate, Bool.and_eq_true] at hv
    exact hv.1.1
  unfold formatExcelDate specSerialToDate
  simp only [jsParseFloat_of_serialPattern hm]
  rw [floor_serial_day]

/-- Claim C10: `formatDateTimeValue` on an empty (or coerced-from-missing)
date value is the empty string, whatever the time value. -/
theorem claim_C10_combine_empty_date (t : String) : formatDateTimeValue "" t = "" := by
  rfl

/-! ## Claim C1: the event filter -/

/-- Claim C1's event datetime as the claim states it: the serial's calendar
day (midnight), with time-of-day taken from an `HH:MM` time cell and
defaulting to midnight otherwise. -/
def claimEventDateTime (dateValue : String) (timeValue : Option String) : Rat :=
  let dayMs : Rat :=
    ((daysFromCivil 1900 1 1 + Int.floor (decimalValue (jsTrim dateValue.data)) - 2 : Int) : Rat)
      * 86400000
  match timeValue with
  | some ts =>
      if matchesTimePattern ts.data then dayMs + (timeMinutes ts.data : Rat) * 60000
      else dayMs
  | none => dayMs

/-- Claim C1's per-record drop test, as stated. -/
def claimIsPast (now : Rat) (row : Row) (dateColumn timeColumn : String) : Bool :=
  match getCell row dateColumn with
  | none => false
  | some dv =>
      if dv == "" then false
      else if !specIsSerialDate dv then false
      else decide (claimEventDateTime dv (getCell row timeColumn) < now)

/-- Claim C1's filter, as stated. -/
def claimFilterPastEvents (now : Rat) (data : List Row) (dateColumn timeColumn : String) :
    List Row :=
  if dateColumn == "" || timeColumn == "" then data
  else data.filter (fun row => !claimIsPast now row dateColumn timeColumn)

/-- Claim C1 is false as stated: for the record with serial date `"1.5"` (noon
of 1899-12-31) and no time cell, at a `now` of 06:00 on 1899-12-31 the code
keeps the record (noon is not past) while the claim's midnight default drops
it. -/
theorem claim_C1_counterexample :
    filterPastEvents (jsMakeDateMs 1900 1 1 - 64800000) [[("d", "1.5")]] "d" "t"
      ≠ claimFilterPastEvents (jsMakeDateMs 1900 1 1 - 64800000) [[("d", "1.5")]] "d" "t" := by
  decide

/-- The amended event datetime: the raw serial timestamp (epoch plus
`(v - 2)` days, the fractional day giving the time-of-day); when the time cell
matches `^\d{1,2}:\d{2}$` the time-of-day is replaced by `h` hours plus `m`
minutes counted from that calendar day's midnight. -/
def amendedEventDateTime (dateValue : String) (timeValue : Option String) : Rat :=
  let q := decimalValue (jsTrim dateValue.data)
  let raw : Rat := ((daysFromCivil 1900 1 1 : Int) : Rat) * 86400000 + (q - 2) * 86400000
  let dayMs : Rat := ((daysFromCivil 1900 1 1 + Int.floor q - 2 : Int) : Rat) * 86400000
  match timeValue with
  | some ts =>
      if matchesTimePattern ts.data then dayMs + (timeMinutes ts.data : Rat) * 60000
      else raw
  | none => raw

/-- The amended per-record drop test. -/
def amendedIsPast (now : Rat) (row : Row) (dateColumn timeColumn : String) : Bool :=
  match getCell row dateColumn with
  | none => false
  | some dv =>
      if dv == "" then false
      else if !specIsSerialDate dv then false
      else decide (amendedEventDateTime dv (getCell row timeColumn) < now)

/-- The amended filter. -/
def amendedFilterPastEvents (now : Rat) (data : List Row) (dateColumn timeColumn : String) :
    List Row :=
  if dateColumn == "" || timeColumn == "" then data
  else data.filter (fun row => !amendedIsPast now row dateColumn timeColumn)

theorem createDateTimeFromExcel_eq_amended {dv : String}
    (hm : matchesSerialPattern (jsTrim dv.data) = true) (tv : Option String) :
    createDateTimeFromExcel dv tv = some (amendedEventDateTime dv tv) := by
  unfold createDateTimeFromExcel amendedEventDateTime
  simp only [jsParseFloat_of_serialPattern hm]
  have hmk : jsMakeDateMs 1900 1 1 = ((daysFromCivil 1900 1 1 : Int) : Rat) * 86400000 := rfl
  cases tv with
  | none =>
      dsimp only
      rw [hmk]
  | some ts =>
      dsimp only
      by_cases hts : (ts != "" && matchesTimePattern ts.data) = true
      · have hpat : matchesTimePattern ts.data = true := by
          simp only [Bool.and_eq_true] at hts
          exact hts.2
        rw [hts, hpat]
        simp only [if_true]
        rw [floor_serial_day]
      · rw [Bool.not_eq_true] at hts
        rw [hts]
        have hpat : matchesTimePattern ts.data = false := by
          rcases Bool.and_eq_false_iff.mp hts with h | h
          · have : ts = "" := by
              simpa using h
            rw [this]
            rfl
          · exact h
        rw [hpat]
        simp only [Bool.false_eq_true, if_false]
        rw [hmk]

theorem isEventInPast_eq_amended (now : Rat) (r : Row) (dc tc : String) :
    isEventInPast now r dc tc = amendedIsPast now r dc tc := by
  unfold isEventInPast amendedIsPast
  cases hg : getCell r dc with
  | none => rfl
  | some dv =>
      dsimp only
      rw [isExcelSerialDate_eq_spec]
      by_cases hdv : (dv == "") = true
      · rw [hdv]
        rfl
      · rw [Bool.not_eq_true] at hdv
        rw [hdv]
        by_cases hs : specIsSerialDate dv = true
        · have hm : matchesSerialPattern (jsTrim dv.data) = true := by
            simp only [specIsSerialDate, Bool.and_eq_true] at hs
            exact hs.1.1
          rw [createDateTimeFromExcel_eq_amended hm]
        · rw [Bool.not_eq_true] at hs
          rw [hs]
          rfl

/-- Claim C1, amended: `filterPastEvents` is the identity when either column
name is unset; otherwise a record with a missing or non-serial date cell is
kept, and a record with a serial date cell is dropped exactly when its event
datetime is strictly before `now`, where the event datetime is the raw serial
timestamp (epoch 1900-01-01 plus `(v - 2)` days, the fractional day giving the
time-of-day — midnight only for integral serials), except that a time cell
matching `^\d{1,2}:\d{2}$` replaces the time-of-day by the given hours and
minutes from that calendar day's midnight. -/
theorem claim_C1_filterPastEvents_amended (now : Rat) (data : List Row) (dc tc : String) :
    filterPastEvents now data dc tc = amendedFilterPastEvents now data dc tc := by
  unfold filterPastEvents amendedFilterPastEvents
  by_cases h : (dc == "" || tc == "") = true
  · rw [if_pos h, if_pos h]
  · rw [if_neg h, if_neg h]
    apply List.filter_congr
    intro r _
    rw [isEventInPast_eq_amended]

/-! ## Claims C7, C8, C9 -/

/-- Claim C7: a sort-header click on column `c` flips the direction when `c`
is the active sort column and otherwise starts ascending on `c`; it re-sorts
the construction-time dataset `data` (never the currently displayed
`currentData`) and resets to page 1. -/
theorem claim_C7_sort_click (data : List Row) (c : String) (s : PgState) :
    (sortClickFn data c s).sortColumn = some c
    ∧ (sortClickFn data c s).sortDirection
        = (if s.sortColumn = some c then flipDir s.sortDirection else SortDir.asc)
    ∧ (sortClickFn data c s).currentData
        = sortData data c (if s.sortColumn = some c then flipDir s.sortDirection else SortDir.asc)
    ∧ (sortClickFn data c s).currentPage = 1 := by
  unfold sortClickFn
  by_cases h : s.sortColumn = some c
  · simp [h]
  · simp [h]

/-- Spec-side column samples (section 4.3): the first up-to-3 non-empty values
of the column, in record order. -/
def specColumnSamples (data : List Row) (column : String) : List String :=
  ((data.filterMap (fun row => getCell row column)).filter (fun s => !(s == ""))).take 3

/-- Spec-side column type: `date` when every sample matches
`^\d{1,2}/\d{1,2}/\d{4}$`, else `number` when every sample parses as a finite
float, else `text` (also for zero samples). -/
def specColumnType (data : List Row) (column : String) : DType :=
  let samples := specColumnSamples data column
  if samples.isEmpty then .text
  else if samples.all (fun s => matchesDatePattern s.data) then .date
  else if samples.all (fun s => (jsParseFloat s).isFiniteNum) then .number
  else .text

theorem samples_map_filter (data : List Row) (column : String) :
    (data.map (fun row => getCell row column)).filter (fun v => !(v == none) && !(v == some ""))
      = ((data.filterMap (fun row => getCell row column)).filter (fun s => !(s == ""))).map some := by
  induction data with
  | nil => rfl
  | cons r rest ih =>
      cases hg : getCell r column with
      | none => simp [List.filterMap_cons, hg, ih]
      | some v =>
          by_cases hv : (v == "") = true
          · have hv' : v = "" := by simpa using hv
            subst hv'
            simp [List.filterMap_cons, hg, ih]
          · rw [Bool.not_eq_true] at hv
            simp [List.filterMap_cons, hg, ih, hv]

/-- Claim C8: the inferred column type is computed from at most the first 3
non-empty values in record order, giving `date` / `number` / `text` exactly as
the spec describes (with zero samples giving `text`). -/
theorem claim_C8_getColumnDataType (data : List Row) (column : String) :
    getColumnDataType data column = specColumnType data column := by
  unfold getColumnDataType specColumnType specColumnSamples
  by_cases hd : data.isEmpty
  · have hnil : data = [] := by
      cases data with
      | nil => rfl
      | cons a l => simp at hd
    subst hnil
    rfl
  · rw [Bool.not_eq_true] at hd
    rw [hd]
    rw [samples_map_filter, ← List.map_take]
    have hie : ∀ (l : List String), (l.map some).isEmpty = l.isEmpty := by
      intro l; cases l <;> rfl
    have hall : ∀ (l : List String) (p : Option String → Bool),
        (l.map some).all p = l.all (fun s => p (some s)) := by
      intro l p
      induction l with
      | nil => rfl
      | cons a t ih => simp [ih]
    simp only [Bool.false_eq_true, if_false, hie, hall, Option.getD_some]

/-- Claim C9: a displayed `*Time` column is suppressed exactly when its
suffix-replaced `*Date` name is also in the display set (membership stated for
the filtered header list), and for the spec's concrete instance the rendered
headers and the merged date-time cell are as stated. -/
theorem claim_C9_time_column_suppression :
    (∀ (dcols : List String) (c : String),
        c ∈ computeDisplayColumns dcols
          ↔ (c ∈ dcols ∧ ¬(strEndsWith c "Time" = true ∧ timeToDateName c ∈ dcols)))
    ∧ computeDisplayColumns ["Event End Date", "Event End Time", "Name"]
        = ["Event End Date", "Name"]
    ∧ cellText [("Event End Date", "2"), ("Event End Time", "03:00"), ("Name", "A")]
        "Event End Date" ["Event End Date", "Event End Time", "Name"]
        = "01/01/1900 03:00" := by
  refine ⟨fun dcols c => ?_, by decide, by decide⟩
  unfold computeDisplayColumns
  rw [List.mem_filter]
  by_cases he : strEndsWith c "Time" = true
  · simp [he, List.elem_iff]
  · rw [Bool.not_eq_true] at he
    simp [he]

/-! ## Properties of the stable sort -/

theorem insertSorted_perm {α : Type} (le : α → α → Bool) (a : α) (l : List α) :
    (insertSorted le a l).Perm (a :: l) := by
  induction l with
  | nil => exact List.Perm.refl _
  | cons b t ih =>
      unfold insertSorted
      by_cases h : le a b = true
      · rw [if_pos h]
      · rw [if_neg h]
        exact List.Perm.trans (List.Perm.cons b ih) (List.Perm.swap a b t)

theorem stableSort_perm {α : Type} (le : α → α → Bool) (l : List α) :
    (stableSort le l).Perm l := by
  induction l with
  | nil => exact List.Perm.refl _
  | cons a t ih =>
      unfold stableSort
      exact List.Perm.trans (insertSorted_perm le a (stableSort le t)) (List.Perm.cons a ih)

theorem mem_stableSort {α : Type} {le : α → α → Bool} {l : List α} {a : α} :
    a ∈ stableSort le l ↔ a ∈ l :=
  (stableSort_perm le l).mem_iff

theorem pairwise_insertSorted {α : Type} {le : α → α → Bool} {a : α} {l : List α}
    (htot : ∀ b ∈ l, le a b = true ∨ le b a = true)
    (htrans : ∀ b ∈ l, ∀ c ∈ l, le a b = true → le b c = true → le a c = true)
    (h : l.Pairwise (fun x y => le x y = true)) :
    (insertSorted le a l).Pairwise (fun x y => le x y = true) := by
  induction l with
  | nil => simp [insertSorted]
  | cons b t ih =>
      rw [List.pairwise_cons] at h
      unfold insertSorted
      by_cases hab : le a b = true
      · rw [if_pos hab]
        rw [List.pairwise_cons]
        refine ⟨?_, List.pairwise_cons.mpr h⟩
        intro x hx
        rcases List.mem_cons.mp hx with hx | hx
        · rw [hx]; exact hab
        · exact htrans b (List.mem_cons_self _ _) x (List.mem_cons_of_mem _ hx) hab (h.1 x hx)
      · rw [if_neg hab]
        have hba : le b a = true := (htot b (List.mem_cons_self _ _)).resolve_left hab
        rw [List.pairwise_cons]
        constructor
        · intro x hx
          rcases List.mem_cons.mp ((insertSorted_perm le a t).mem_iff.mp hx) with hx | hx
          · rw [hx]; exact hba
          · exact h.1 x hx
        · exact ih (fun b hb => htot b (List.mem_cons_of_mem _ hb))
            (fun b hb c hc => htrans b (List.mem_cons_of_mem _ hb) c (List.mem_cons_of_mem _ hc))
            h.2

theorem stableSort_pairwise {α : Type} {le : α → α → Bool} {l : List α}
    (htot : ∀ a ∈ l, ∀ b ∈ l, le a b = true ∨ le b a = true)
    (htrans : ∀ a ∈ l, ∀ b ∈ l, ∀ c ∈ l, le a b = true → le b c = true → le a c = true) :
    (stableSort le l).Pairwise (fun x y => le x y = true) := by
  induction l with
  | nil => constructor
  | cons a t ih =>
      unfold stableSort
      apply pairwise_insertSorted
      · intro b hb
        exact htot a (List.mem_cons_self _ _) b
          (List.mem_cons_of_mem _ (mem_stableSort.mp hb))
      · intro b hb c hc
        exact htrans a (List.mem_cons_self _ _) b
          (List.mem_cons_of_mem _ (mem_stableSort.mp hb)) c
          (List.mem_cons_of_mem _ (mem_stableSort.mp hc))
      · exact ih
          (fun x hx y hy => htot x (List.mem_cons_of_mem _ hx) y (List.mem_cons_of_mem _ hy))
          (fun x hx y hy z hz => htrans x (List.mem_cons_of_mem _ hx) y
            (List.mem_cons_of_mem _ hy) z (List.mem_cons_of_mem _ hz))

theorem stableSort_of_pairwise {α : Type} {le : α → α → Bool} {l : List α}
    (h : l.Pairwise (fun x y => le x y = true)) :
    stableSort le l = l := by
  induction l with
  | nil => rfl
  | cons a t ih =>
      rw [List.pairwise_cons] at h
      unfold stableSort
      rw [ih h.2]
      cases t with
      | nil => rfl
      | cons b t2 =>
          unfold insertSorted
          rw [if_pos (h.1 b (List.mem_cons_self _ _))]

/-! ## The comparator's sign antisymmetry (hence totality of `rowLe`) -/

theorem qsign_sub_antisymm (x y : Rat) : qsign (y - x) = -qsign (x - y) := by
  unfold qsign
  split_ifs <;> try (exfalso; linarith)
  all_goals norm_num

theorem jsSubSign_antisymm (a b : JsNum) : jsSubSign b a = -jsSubSign a b := by
  cases a <;> cases b <;> first | exact qsign_sub_antisymm _ _ | rfl

theorem dateSubSign_antisymm (a b : Option Rat) : dateSubSign b a = -dateSubSign a b := by
  cases a <;> cases b <;> first | exact qsign_sub_antisymm _ _ | rfl

theorem lexSign_antisymm (a b : List Char) : lexSign b a = -lexSign a b := by
  induction a generalizing b with
  | nil => cases b <;> rfl
  | cons x xs ih =>
      cases b with
      | nil => rfl
      | cons y ys =>
          unfold lexSign
          rcases Nat.lt_trichotomy x.toNat y.toNat with h | h | h
          · rw [if_neg (by omega), if_pos h, if_pos h]
            norm_num
          · rw [if_neg (by omega), if_neg (by omega), if_neg (by omega), if_neg (by omega)]
            exact ih ys
          · rw [if_pos h, if_neg (by omega), if_pos h]

theorem compareRows_antisymm (dt : DType) (dir : SortDir) (c : String) (a b : Row) :
    compareRows dt dir c b a = -(compareRows dt dir c a b) := by
  unfold compareRows
  by_cases ha : (cellD a c == "") = true <;> by_cases hb : (cellD b c == "") = true <;>
    simp only [ha, hb, Bool.true_and, Bool.false_and, Bool.and_true, Bool.and_false,
      Bool.false_eq_true, if_true, if_false]
  · rcases dir with _ | _ <;> decide
  · rcases dir with _ | _ <;> decide
  · rcases dir with _ | _ <;> decide
  · cases dt <;> rcases dir with _ | _
    · show dateSubSign (jsDateParseMs (cellD b c)) (jsDateParseMs (cellD a c))
        = -(dateSubSign (jsDateParseMs (cellD a c)) (jsDateParseMs (cellD b c)))
      exact dateSubSign_antisymm _ _
    · show -(dateSubSign (jsDateParseMs (cellD b c)) (jsDateParseMs (cellD a c)))
        = -(-(dateSubSign (jsDateParseMs (cellD a c)) (jsDateParseMs (cellD b c))))
      rw [dateSubSign_antisymm (jsDateParseMs (cellD a c)) (jsDateParseMs (cellD b c))]
    · show jsSubSign (jsParseFloat (cellD b c)) (jsParseFloat (cellD a c))
        = -(jsSubSign (jsParseFloat (cellD a c)) (jsParseFloat (cellD b c)))
      exact jsSubSign_antisymm _ _
    · show -(jsSubSign (jsParseFloat (cellD b c)) (jsParseFloat (cellD a c)))
        = -(-(jsSubSign (jsParseFloat (cellD a c)) (jsParseFloat (cellD b c))))
      rw [jsSubSign_antisymm (jsParseFloat (cellD a c)) (jsParseFloat (cellD b c))]
    · show lexSign (lowerStr (cellD b c)) (lowerStr (cellD a c))
        = -(lexSign (lowerStr (cellD a c)) (lowerStr (cellD b c)))
      exact lexSign_antisymm _ _
    · show -(lexSign (lowerStr (cellD b c)) (lowerStr (cellD a c)))
        = -(-(lexSign (lowerStr (cellD a c)) (lowerStr (cellD b c))))
      rw [lexSign_antisymm (lowerStr (cellD a c)) (lowerStr (cellD b c))]

theorem rowLe_total (dt : DType) (dir : SortDir) (c : String) (a b : Row) :
    rowLe dt dir c a b = true ∨ rowLe dt dir c b a = true := by
  unfold rowLe
  have h := compareRows_antisymm dt dir c a b
  rcases le_or_lt (compareRows dt dir c a b) 0 with hle | hlt
  · left; exact decide_eq_true hle
  · right; exact decide_eq_true (by omega)

/-! ## Claim C2: sort idempotence -/

/-- Claim C2 is false as stated: sorting the column below ascending infers
type `text` (first samples `"z"`, `"2"`, `"10"`), but re-sorting the sorted
result re-samples the reordered data, infers `number`, and reorders again. -/
theorem claim_C2_counterexample :
    sortData (sortData [[("c", "z")], [("c", "2")], [("c", "10")], [("c", "9")]] "c" .asc)
        "c" .asc
      ≠ sortData [[("c", "z")], [("c", "2")], [("c", "10")], [("c", "9")]] "c" .asc := by
  decide

/-- Claim C2, amended: re-sorting with the same column and direction is the
identity provided the comparator relation is transitive on the rows of `data`
and the inferred column type is unchanged by the sort (the original claim
fails only through these two channels: type re-inference on the reordered
data, and comparator inconsistency from incomparable values). -/
theorem claim_C2_sort_idempotent_amended (data : List Row) (c : String) (d : SortDir)
    (htrans : ∀ a ∈ data, ∀ b ∈ data, ∀ e ∈ data,
        rowLe (getColumnDataType data c) d c a b = true →
        rowLe (getColumnDataType data c) d c b e = true →
        rowLe (getColumnDataType data c) d c a e = true)
    (htype : getColumnDataType (sortData data c d) c = getColumnDataType data c) :
    sortData (sortData data c d) c d = sortData data c d := by
  unfold sortData at htype ⊢
  rw [htype]
  apply stableSort_of_pairwise
  apply stableSort_pairwise
  · intro x _ y _
    exact rowLe_total _ _ _ x y
  · intro x hx y hy z hz
    exact htrans x hx y hy z hz

/-- Witness for the amended claim C2 at a concrete input. -/
theorem claim_C2_sort_idempotent_amended_witness :
    (∀ a ∈ ([[("c", "2")], [("c", "1")]] : List Row),
      ∀ b ∈ ([[("c", "2")], [("c", "1")]] : List Row),
      ∀ e ∈ ([[("c", "2")], [("c", "1")]] : List Row),
        rowLe (getColumnDataType [[("c", "2")], [("c", "1")]] "c") .asc "c" a b = true →
        rowLe (getColumnDataType [[("c", "2")], [("c", "1")]] "c") .asc "c" b e = true →
        rowLe (getColumnDataType [[("c", "2")], [("c", "1")]] "c") .asc "c" a e = true)
    ∧ getColumnDataType (sortData [[("c", "2")], [("c", "1")]] "c" .asc) "c"
        = getColumnDataType [[("c", "2")], [("c", "1")]] "c"
    ∧ sortData (sortData [[("c", "2")], [("c", "1")]] "c" .asc) "c" .asc
        = sortData [[("c", "2")], [("c", "1")]] "c" .asc :=
  ⟨by decide, by decide,
    claim_C2_sort_idempotent_amended [[("c", "2")], [("c", "1")]] "c" .asc
      (by decide) (by decide)⟩

/-! ## Claim C3: asc/desc reversal on number columns -/

/-- The numeric sort key of a row (its parsed cell value; 0 for non-finite,
unused under the finiteness hypotheses). -/
def numKey (c : String) (r : Row) : Rat :=
  match jsParseFloat (cellD r c) with
  | .fin q => q
  | _ => 0

theorem qsign_nonpos_iff (x : Rat) : qsign x ≤ 0 ↔ x ≤ 0 := by
  unfold qsign
  split_ifs with h1 h2 <;> constructor <;> intro h <;> linarith

theorem neg_qsign_nonpos_iff (x : Rat) : -qsign x ≤ 0 ↔ 0 ≤ x := by
  unfold qsign
  split_ifs with h1 h2 <;> constructor <;> intro h <;> linarith

theorem rowLe_asc_iff {c : String} {a b : Row}
    (hfa : (cellD a c == "") = false → (jsParseFloat (cellD a c)).isFiniteNum = true)
    (hfb : (cellD b c == "") = false → (jsParseFloat (cellD b c)).isFiniteNum = true) :
    rowLe .number .asc c a b = true ↔
      (((cellD a c == "") = true → (cellD b c == "") = true) ∧
        ((cellD a c == "") = false → (cellD b c == "") = false →
          numKey c a ≤ numKey c b)) := by
  unfold rowLe compareRows
  by_cases ea : (cellD a c == "") = true <;> by_cases eb : (cellD b c == "") = true <;>
    simp only [ea, eb, Bool.true_and, Bool.false_and, Bool.and_true, Bool.and_false,
      Bool.false_eq_true, if_true, if_false]
  · simp
  · rw [Bool.not_eq_true] at eb
    simp [ea, eb]
  · rw [Bool.not_eq_true] at ea
    simp [ea, eb]
  · rw [Bool.not_eq_true] at ea eb
    obtain ⟨qa, hqa⟩ : ∃ q, jsParseFloat (cellD a c) = .fin q := by
      cases hv : jsParseFloat (cellD a c) <;> rw [hv] at hfa <;>
        first
          | exact ⟨_, rfl⟩
          | exact absurd (hfa ea) (by simp [JsNum.isFiniteNum])
    obtain ⟨qb, hqb⟩ : ∃ q, jsParseFloat (cellD b c) = .fin q := by
      cases hv : jsParseFloat (cellD b c) <;> rw [hv] at hfb <;>
        first
          | exact ⟨_, rfl⟩
          | exact absurd (hfb eb) (by simp [JsNum.isFiniteNum])
    rw [hqa, hqb]
    have hka : numKey c a = qa := by simp [numKey, hqa]
    have hkb : numKey c b = qb := by simp [numKey, hqb]
    simp only [ea, eb, hka, hkb]
    show (decide (jsSubSign (JsNum.fin qa) (JsNum.fin qb) ≤ 0)) = true ↔ _
    simp only [jsSubSign, decide_eq_true_eq]
    rw [qsign_nonpos_iff]
    constructor
    · intro h
      exact ⟨fun hx => absurd hx (by simp [ea]), fun _ _ => by linarith⟩
    · intro h
      have := h.2 trivial trivial
      linarith

theorem rowLe_desc_iff {c : String} {a b : Row}
    (hfa : (cellD a c == "") = false → (jsParseFloat (cellD a c)).isFiniteNum = true)
    (hfb : (cellD b c == "") = false → (jsParseFloat (cellD b c)).isFiniteNum = true) :
    rowLe .number .desc c a b = true ↔
      (((cellD b c == "") = true → (cellD a c == "") = true) ∧
        ((cellD a c == "") = false → (cellD b c == "") = false →
          numKey c b ≤ numKey c a)) := by
  unfold rowLe compareRows
  by_cases ea : (cellD a c == "") = true <;> by_cases eb : (cellD b c == "") = true <;>
    simp only [ea, eb, Bool.true_and, Bool.false_and, Bool.and_true, Bool.and_false,
      Bool.false_eq_true, if_true, if_false]
  · simp
  · rw [Bool.not_eq_true] at eb
    simp [ea, eb]
  · rw [Bool.not_eq_true] at ea
    simp [ea, eb]
  · rw [Bool.not_eq_true] at ea eb
    obtain ⟨qa, hqa⟩ : ∃ q, jsParseFloat (cellD a c) = .fin q := by
      cases hv : jsParseFloat (cellD a c) <;> rw [hv] at hfa <;>
        first
          | exact ⟨_, rfl⟩
          | exact absurd (hfa ea) (by simp [JsNum.isFiniteNum])
    obtain ⟨qb, hqb⟩ : ∃ q, jsParseFloat (cellD b c) = .fin q := by
      cases hv : jsParseFloat (cellD b c) <;> rw [hv] at hfb <;>
        first
          | exact ⟨_, rfl⟩
          | exact absurd (hfb eb) (by simp [JsNum.isFiniteNum])
    rw [hqa, hqb]
    have hka : numKey c a = qa := by simp [numKey, hqa]
    have hkb : numKey c b = qb := by simp [numKey, hqb]
    simp only [ea, eb, hka, hkb]
    show (decide (-(jsSubSign (JsNum.fin qa) (JsNum.fin qb)) ≤ 0)) = true ↔ _
    simp only [jsSubSign, decide_eq_true_eq]
    rw [neg_qsign_nonpos_iff]
    constructor
    · intro h
      exact ⟨fun hx => absurd hx (by simp [eb]), fun _ _ => by linarith⟩
    · intro h
      have := h.2 trivial trivial
      linarith

theorem rowLe_asc_trans {c : String} {a b e : Row}
    (hfa : (cellD a c == "") = false → (jsParseFloat (cellD a c)).isFiniteNum = true)
    (hfb : (cellD b c == "") = false → (jsParseFloat (cellD b c)).isFiniteNum = true)
    (hfe : (cellD e c == "") = false → (jsParseFloat (cellD e c)).isFiniteNum = true)
    (h1 : rowLe .number .asc c a b = true) (h2 : rowLe .number .asc c b e = true) :
    rowLe .number .asc c a e = true := by
  rw [rowLe_asc_iff hfa hfb] at h1
  rw [rowLe_asc_iff hfb hfe] at h2
  rw [rowLe_asc_iff hfa hfe]
  refine ⟨fun hx => h2.1 (h1.1 hx), ?_⟩
  intro ha he
  by_cases hb : (cellD b c == "") = true
  · have := h2.1 hb
    simp [he] at this
  · rw [Bool.not_eq_true] at hb
    exact le_trans (h1.2 ha hb) (h2.2 hb he)

theorem rowLe_desc_trans {c : String} {a b e : Row}
    (hfa : (cellD a c == "") = false → (jsParseFloat (cellD a c)).isFiniteNum = true)
    (hfb : (cellD b c == "") = false → (jsParseFloat (cellD b c)).isFiniteNum = true)
    (hfe : (cellD e c == "") = false → (jsParseFloat (cellD e c)).isFiniteNum = true)
    (h1 : rowLe .number .desc c a b = true) (h2 : rowLe .number .desc c b e = true) :
    rowLe .number .desc c a e = true := by
  rw [rowLe_desc_iff hfa hfb] at h1
  rw [rowLe_desc_iff hfb hfe] at h2
  rw [rowLe_desc_iff hfa hfe]
  refine ⟨fun hx => h1.1 (h2.1 hx), ?_⟩
  intro ha he
  by_cases hb : (cellD b c == "") = true
  · have := h1.1 hb
    simp [ha] at this
  · rw [Bool.not_eq_true] at hb
    exact le_trans (h2.2 hb he) (h1.2 ha hb)

theorem filter_split_of_pairwise {α : Type} {p : α → Bool} {l : List α}
    (h : l.Pairwise (fun a b => p a = true → p b = true)) :
    l = l.filter (fun x => !(p x)) ++ l.filter p := by
  induction l with
  | nil => rfl
  | cons a t ih =>
      rw [List.pairwise_cons] at h
      by_cases hp : p a = true
      · have hall : ∀ x ∈ t, p x = true := fun x hx => h.1 x hx hp
        have h1 : t.filter (fun x => !(p x)) = [] := by
          rw [List.filter_eq_nil_iff]
          intro x hx
          simp [hall x hx]
        have h2 : t.filter p = t := List.filter_eq_self.mpr hall
        simp [List.filter_cons, hp, h1, h2]
      · have hpf : p a = false := Bool.not_eq_true _ ▸ Bool.eq_false_iff.mpr hp
        have := ih h.2
        simp only [List.filter_cons, hpf, Bool.not_false, if_true, Bool.false_eq_true, if_false]
        rw [List.cons_append]
        exact congrArg (a :: ·) this

/-- Claim C3 is false as stated: with two rows carrying the equal key `"5"`,
the stable sort leaves both orders identical, so descending is not the
reverse of ascending on the non-empty rows. -/
theorem claim_C3_counterexample :
    getColumnDataType [[("c", "5"), ("n", "x")], [("c", "5"), ("n", "y")]] "c" = DType.number
    ∧ ¬ ((sortData [[("c", "5"), ("n", "x")], [("c", "5"), ("n", "y")]] "c" .desc).filter
          (fun r => !(cellD r "c" == ""))
        = ((sortData [[("c", "5"), ("n", "x")], [("c", "5"), ("n", "y")]] "c" .asc).filter
            (fun r => !(cellD r "c" == ""))).reverse) := by
  constructor
  · decide
  · decide

/-- Claim C3, amended: for a `number`-typed column whose non-empty values all
parse to finite, pairwise-distinct numbers, descending order is exactly the
reverse of ascending order on the rows with non-empty values, and
empty-valued rows are anchored as a suffix of the ascending result and a
prefix of the descending result (the original claim fails only on repeated
keys, where stability keeps the tied rows in source order in both
directions). -/
theorem claim_C3_number_sort_reversal_amended (data : List Row) (c : String)
    (htype : getColumnDataType data c = .number)
    (hfin : ∀ r ∈ data, (cellD r c == "") = false →
        (jsParseFloat (cellD r c)).isFiniteNum = true)
    (hdist : (data.filter (fun r => !(cellD r c == ""))).Pairwise
        (fun a b => numKey c a ≠ numKey c b)) :
    (sortData data c .desc).filter (fun r => !(cellD r c == ""))
        = ((sortData data c .asc).filter (fun r => !(cellD r c == ""))).reverse
    ∧ sortData data c .asc
        = (sortData data c .asc).filter (fun r => !(cellD r c == ""))
          ++ (sortData data c .asc).filter (fun r => cellD r c == "")
    ∧ sortData data c .desc
        = (sortData data c .desc).filter (fun r => cellD r c == "")
          ++ (sortData data c .desc).filter (fun r => !(cellD r c == "")) := by
  have hA : sortData data c .asc = stableSort (rowLe .number .asc c) data := by
    unfold sortData
    rw [htype]
  have hD : sortData data c .desc = stableSort (rowLe .number .desc c) data := by
    unfold sortData
    rw [htype]
  set A := stableSort (rowLe .number .asc c) data with hAdef
  set D := stableSort (rowLe .number .desc c) data with hDdef
  have hpermA : A.Perm data := stableSort_perm _ _
  have hpermD : D.Perm data := stableSort_perm _ _
  have hfinA : ∀ r ∈ A, (cellD r c == "") = false →
      (jsParseFloat (cellD r c)).isFiniteNum = true :=
    fun r hr => hfin r (hpermA.mem_iff.mp hr)
  have hfinD : ∀ r ∈ D, (cellD r c == "") = false →
      (jsParseFloat (cellD r c)).isFiniteNum = true :=
    fun r hr => hfin r (hpermD.mem_iff.mp hr)
  have SA : A.Pairwise (fun x y => rowLe .number .asc c x y = true) :=
    stableSort_pairwise (fun a _ b _ => rowLe_total _ _ _ a b)
      (fun a ha b hb e he => rowLe_asc_trans (hfin a ha) (hfin b hb) (hfin e he))
  have SD : D.Pairwise (fun x y => rowLe .number .desc c x y = true) :=
    stableSort_pairwise (fun a _ b _ => rowLe_total _ _ _ a b)
      (fun a ha b hb e he => rowLe_desc_trans (hfin a ha) (hfin b hb) (hfin e he))
  -- anchoring of the empty-valued rows
  have hsplitA : A = A.filter (fun x => !(cellD x c == "")) ++ A.filter (fun x => cellD x c == "") := by
    apply filter_split_of_pairwise (p := fun r => cellD r c == "")
    refine SA.imp_of_mem ?_
    intro x y hx hy hxy
    exact ((rowLe_asc_iff (hfinA x hx) (hfinA y hy)).mp hxy).1
  have hsplitD : D = D.filter (fun x => !(!(cellD x c == "")))
      ++ D.filter (fun x => !(cellD x c == "")) := by
    apply filter_split_of_pairwise (p := fun r => !(cellD r c == ""))
    refine SD.imp_of_mem ?_
    intro x y hx hy hxy hxe
    have hiff := ((rowLe_desc_iff (hfinD x hx) (hfinD y hy)).mp hxy).1
    by_contra hye
    rw [Bool.not_eq_true, Bool.not_eq_false'] at hye
    have hx' := hiff hye
    rw [Bool.not_eq_true'] at hxe
    simp [hx'] at hxe
  have hDD : D.filter (fun x => !(!(cellD x c == ""))) = D.filter (fun x => cellD x c == "") :=
    List.filter_congr (fun x _ => by rw [Bool.not_not])
  -- the strict reversal on the non-empty rows
  set NA := A.filter (fun r => !(cellD r c == "")) with hNA
  set ND := D.filter (fun r => !(cellD r c == "")) with hND
  have hmemNA : ∀ r ∈ NA, r ∈ A ∧ (cellD r c == "") = false := by
    intro r hr
    have := List.mem_filter.mp hr
    exact ⟨this.1, by simpa using this.2⟩
  have hmemND : ∀ r ∈ ND, r ∈ D ∧ (cellD r c == "") = false := by
    intro r hr
    have := List.mem_filter.mp hr
    exact ⟨this.1, by simpa using this.2⟩
  have hpermNA : NA.Perm (data.filter (fun r => !(cellD r c == ""))) :=
    hpermA.filter _
  have hpermND : ND.Perm (data.filter (fun r => !(cellD r c == ""))) :=
    hpermD.filter _
  have hdistNA : NA.Pairwise (fun a b => numKey c a ≠ numKey c b) :=
    ((hpermNA.pairwise_iff (fun h => h.symm)).mpr hdist)
  have hdistND : ND.Pairwise (fun a b => numKey c a ≠ numKey c b) :=
    ((hpermND.pairwise_iff (fun h => h.symm)).mpr hdist)
  have hstrictNA : NA.Pairwise (fun a b => numKey c a < numKey c b) := by
    have hle : NA.Pairwise (fun x y => rowLe .number .asc c x y = true) := SA.filter _
    refine ((hle.and hdistNA).imp_of_mem ?_)
    intro x y hx hy hxy
    have h1 := ((rowLe_asc_iff (hfinA x (hmemNA x hx).1) (hfinA y (hmemNA y hy).1)).mp hxy.1).2
      (hmemNA x hx).2 (hmemNA y hy).2
    exact lt_of_le_of_ne h1 hxy.2
  have hstrictND : ND.Pairwise (fun a b => numKey c b < numKey c a) := by
    have hle : ND.Pairwise (fun x y => rowLe .number .desc c x y = true) := SD.filter _
    refine ((hle.and hdistND).imp_of_mem ?_)
    intro x y hx hy hxy
    have h1 := ((rowLe_desc_iff (hfinD x (hmemND x hx).1) (hfinD y (hmemND y hy).1)).mp hxy.1).2
      (hmemND x hx).2 (hmemND y hy).2
    exact lt_of_le_of_ne h1 (fun h => hxy.2 h.symm)
  have hstrictNDrev : ND.reverse.Pairwise (fun a b => numKey c a < numKey c b) :=
    List.pairwise_reverse.mpr hstrictND
  have hpermrev : NA.Perm ND.reverse :=
    (hpermNA.trans hpermND.symm).trans (ND.reverse_perm).symm
  have heq : NA = ND.reverse := by
    haveI : IsAntisymm Row (fun a b => numKey c a < numKey c b) :=
      ⟨fun a b h1 h2 => absurd (lt_trans h1 h2) (lt_irrefl _)⟩
    exact List.eq_of_perm_of_sorted hpermrev hstrictNA hstrictNDrev
  refine ⟨?_, ?_, ?_⟩
  · rw [hA, hD]
    show ND = NA.reverse
    rw [heq, List.reverse_reverse]
  · rw [hA]
    exact hsplitA
  · rw [hD]
    rw [← hDD]
    exact hsplitD

/-- Witness for the amended claim C3 at a concrete input with an empty cell. -/
theorem claim_C3_number_sort_reversal_amended_witness :
    getColumnDataType [[("c", "2")], [("c", "")], [("c", "1")]] "c" = DType.number
    ∧ (sortData [[("c", "2")], [("c", "")], [("c", "1")]] "c" .desc).filter
          (fun r => !(cellD r "c" == ""))
        = ((sortData [[("c", "2")], [("c", "")], [("c", "1")]] "c" .asc).filter
            (fun r => !(cellD r "c" == ""))).reverse := by
  refine ⟨by decide, ?_⟩
  exact (claim_C3_number_sort_reversal_amended [[("c", "2")], [("c", "")], [("c", "1")]] "c"
    (by decide) (by decide) (by decide)).1

/-! ## Claim C4: pagination invariants on reachable states -/

theorem ceilPages_pos {len ipp : Nat} (hl : 1 ≤ len) (hi : 1 ≤ ipp) :
    1 ≤ ceilPages len ipp := by
  unfold ceilPages
  rw [Nat.one_le_div_iff hi]
  omega

theorem sortData_length (data : List Row) (c : String) (d : SortDir) :
    (sortData data c d).length = data.length := by
  unfold sortData
  exact (stableSort_perm _ _).length_eq

/-- The inductive invariant of the pagination state machine. -/
def PgInv (data : List Row) (s : PgState) : Prop :=
  s.currentData.length = data.length
  ∧ (s.itemsPerPage = 10 ∨ s.itemsPerPage = 25 ∨ s.itemsPerPage = 50 ∨ s.itemsPerPage = 100)
  ∧ 1 ≤ s.currentPage
  ∧ s.currentPage ≤ totalPagesOf s

theorem pgInv_init {data : List Row} (hlen : 1 ≤ data.length) (columns : List String) :
    PgInv data (initState data columns) := by
  unfold PgInv initState totalPagesOf
  cases hc : findEventStartDateColumn columns with
  | none =>
      dsimp only
      exact ⟨rfl, Or.inl rfl, le_refl 1, ceilPages_pos hlen (by omega)⟩
  | some col =>
      dsimp only
      refine ⟨sortData_length data col .asc, Or.inl rfl, le_refl 1, ?_⟩
      rw [sortData_length data col .asc]
      exact ceilPages_pos hlen (by omega)

theorem pgInv_sortClick {data : List Row} {s : PgState} (hlen : 1 ≤ data.length)
    (column : String) (h : PgInv data s) : PgInv data (sortClickFn data column s) := by
  obtain ⟨hl, hi, h1, h2⟩ := h
  unfold PgInv sortClickFn totalPagesOf
  dsimp only
  refine ⟨sortData_length data column _, hi, le_refl 1, ?_⟩
  rw [sortData_length data column _]
  exact ceilPages_pos hlen (by rcases hi with h | h | h | h <;> omega)

theorem pgInv_prev {data : List Row} {s : PgState} (h : PgInv data s) :
    PgInv data (prevFn s) := by
  obtain ⟨hl, hi, h1, h2⟩ := h
  unfold PgInv prevFn
  by_cases hp : 1 < s.currentPage
  · rw [if_pos hp]
    unfold totalPagesOf at h2 ⊢
    dsimp only
    exact ⟨hl, hi, by omega, by omega⟩
  · rw [if_neg hp]
    exact ⟨hl, hi, h1, h2⟩

theorem pgInv_next {data : List Row} {s : PgState} (h : PgInv data s) :
    PgInv data (nextFn s) := by
  obtain ⟨hl, hi, h1, h2⟩ := h
  unfold PgInv nextFn
  by_cases hp : s.currentPage < totalPagesOf s
  · rw [if_pos hp]
    unfold totalPagesOf at hp h2 ⊢
    dsimp only
    exact ⟨hl, hi, by omega, by omega⟩
  · rw [if_neg hp]
    exact ⟨hl, hi, h1, h2⟩

theorem pgInv_setIpp {data : List Row} {s : PgState} (hlen : 1 ≤ data.length)
    {n : Nat} (hn : n = 10 ∨ n = 25 ∨ n = 50 ∨ n = 100) (h : PgInv data s) :
    PgInv data (setIppFn n s) := by
  obtain ⟨hl, hi, h1, h2⟩ := h
  unfold PgInv setIppFn totalPagesOf
  dsimp only
  refine ⟨hl, hn, le_refl 1, ?_⟩
  rw [hl]
  exact ceilPages_pos hlen (by rcases hn with h | h | h | h <;> omega)

theorem pgInv_of_reachable {data : List Row} {columns : List String}
    (hdata : data ≠ []) {s : PgState} (hreach : PgReachable data columns s) :
    PgInv data s := by
  have hlen : 1 ≤ data.length := List.length_pos.mpr hdata
  induction hreach with
  | refl => exact pgInv_init hlen columns
  | tail hsteps hstep ih =>
      cases hstep with
      | sortClick column hc => exact pgInv_sortClick hlen column ih
      | pagePrev => exact pgInv_prev ih
      | pageNext => exact pgInv_next ih
      | itemsChange n hn => exact pgInv_setIpp hlen hn ih

/-- Claim C4: in every reachable pagination state of a table built over a
non-empty dataset, `currentPage` lies in
`[1, max(1, ceil(len(currentData) / itemsPerPage))]`, the rendered
`totalPages` equals that bound, Previous is disabled exactly on page 1, and
Next is disabled exactly when `currentPage >= totalPages`. -/
theorem claim_C4_pagination_invariants (data : List Row) (columns : List String)
    (hdata : data ≠ []) (s : PgState) (hreach : PgReachable data columns s) :
    (1 ≤ s.currentPage
      ∧ s.currentPage ≤ max 1 (ceilPages s.currentData.length s.itemsPerPage))
    ∧ totalPagesOf s = max 1 (ceilPages s.currentData.length s.itemsPerPage)
    ∧ (prevDisabled s = true ↔ s.currentPage = 1)
    ∧ (nextDisabled s = true ↔ totalPagesOf s ≤ s.currentPage) := by
  obtain ⟨hl, hi, h1, h2⟩ := pgInv_of_reachable hdata hreach
  have hlen : 1 ≤ data.length := List.length_pos.mpr hdata
  have hc1 : 1 ≤ ceilPages s.currentData.length s.itemsPerPage := by
    rw [hl]
    exact ceilPages_pos hlen (by rcases hi with h | h | h | h <;> omega)
  have hmax : max 1 (ceilPages s.currentData.length s.itemsPerPage)
      = ceilPages s.currentData.length s.itemsPerPage := Nat.max_eq_right hc1
  unfold totalPagesOf at h2 ⊢
  rw [hmax]
  refine ⟨⟨h1, h2⟩, rfl, ?_, ?_⟩
  · unfold prevDisabled
    simp [Nat.beq_eq_true_eq]
  · unfold nextDisabled totalPagesOf
    simp [decide_eq_true_eq]

/-- Witness for claim C4 at a concrete one-row table and its initial state. -/
theorem claim_C4_pagination_invariants_witness :
    ([[("n", "a")]] : List Row) ≠ []
    ∧ ((1 ≤ (initState [[("n", "a")]] ([] : List String)).currentPage
        ∧ (initState [[("n", "a")]] ([] : List String)).currentPage
            ≤ max 1 (ceilPages (initState [[("n", "a")]] ([] : List String)).currentData.length
                (initState [[("n", "a")]] ([] : List String)).itemsPerPage))
      ∧ totalPagesOf (initState [[("n", "a")]] ([] : List String))
          = max 1 (ceilPages (initState [[("n", "a")]] ([] : List String)).currentData.length
              (initState [[("n", "a")]] ([] : List String)).itemsPerPage)
      ∧ (prevDisabled (initState [[("n", "a")]] ([] : List String)) = true
          ↔ (initState [[("n", "a")]] ([] : List String)).currentPage = 1)
      ∧ (nextDisabled (initState [[("n", "a")]] ([] : List String)) = true
          ↔ totalPagesOf (initState [[("n", "a")]] ([] : List String))
              ≤ (initState [[("n", "a")]] ([] : List String)).currentPage)) :=
  ⟨by decide,
    claim_C4_pagination_invariants [[("n", "a")]] [] (by decide) _ Relation.ReflTransGen.refl⟩

/-- Witness for claim C6's serial-date hypothesis at `"45000"`. -/
theorem claim_C6_serialToDate_witness :
    isExcelSerialDate "45000" = true ∧ formatExcelDate "45000" = specSerialToDate "45000" :=
  ⟨by decide, claim_C6_serialToDate.1 "45000" (by decide)⟩
